import Mathlib

/-!
Verification development for the MD_MIDIFile Standard MIDI File (SMF)
decoder and multi-track scheduler.

The repository ships the library header (MD_MIDIFile.h) with the class
declarations, configuration constants and documented behaviour; the
method bodies (MD_MIDIFile.cpp) are not part of the source tree.  The
operational definitions below are therefore modelled from the
specification (sections 3, 4, 6, 7) and the doc comments of the header,
as noted on each definition.  Data structures (midi_event, sysex_event,
the track fields) follow the header declarations directly.
-/

/-- Error produced by the variable-length-quantity reader.  The spec
(section 4.1) calls this failure MalformedEncoding: either the VLQ
exceeds 4 bytes without terminating, or a read crosses the declared
byte-range boundary. -/
inductive VlqError where
  | MalformedEncoding
deriving DecidableEq

/-- Modelled from the spec: worker for the VLQ reader of section 4.1
(the body of the readVarLen helper of MD_MIDIFile.cpp is not in the
source tree).  The first argument is the number of continuation bytes
still allowed; each byte contributes its low 7 bits, a high bit set
means another byte follows. -/
def readVarLenAux (data : List Nat) : Nat → Nat → Nat → Except VlqError (Nat × Nat)
  | 0, off, acc =>
    match data[off]? with
    | none => .error .MalformedEncoding
    | some b =>
      if b < 128 then .ok (acc * 128 + b, off + 1)
      else .error .MalformedEncoding
  | cont + 1, off, acc =>
    match data[off]? with
    | none => .error .MalformedEncoding
    | some b =>
      if b < 128 then .ok (acc * 128 + b, off + 1)
      else readVarLenAux data cont (off + 1) (acc * 128 + b % 128)

/-- Modelled from the spec: the VLQ decoder of section 4.1.  Reads a
MIDI variable-length quantity at the given offset: big-endian 7-bit
groups, high bit set means continuation, maximum 4 bytes.  Returns the
value and the new offset, or MalformedEncoding. -/
def readVarLen (data : List Nat) (off : Nat) : Except VlqError (Nat × Nat) :=
  readVarLenAux data 3 off 0

/-- Modelled from the spec: VLQ encoding (section 6 binary format),
used to state the encode-then-decode round trip of section 8.  Values
up to 0x0FFFFFFF use at most 4 bytes. -/
def vlqEncode (v : Nat) : List Nat :=
  if v < 128 then [v]
  else if v < 16384 then [128 + v / 128, v % 128]
  else if v < 2097152 then [128 + v / 16384, 128 + v / 128 % 128, v % 128]
  else [128 + v / 2097152, 128 + v / 16384 % 128, 128 + v / 128 % 128, v % 128]

/-- The midi_event structure of MD_MIDIFile.h (lines 354-360): track,
channel, number of valid bytes and the data bytes (data[0] holds the
status byte with the channel nibble cleared, as the library's callback
examples document). -/
structure MidiEv where
  track : Nat
  channel : Nat
  size : Nat
  data : List Nat
deriving DecidableEq

/-- The sysex_event structure of MD_MIDIFile.h (lines 368-373): track,
number of valid bytes and the data bytes (capacity 50). -/
structure SysexEv where
  track : Nat
  size : Nat
  data : List Nat
deriving DecidableEq

/-- An event handed to a caller callback: MIDI or SYSEX.  Meta events
are consumed internally and never delivered. -/
inductive Delivered where
  | midi : MidiEv → Delivered
  | sysex : SysexEv → Delivered
deriving DecidableEq

/-- Shared state of the MD_MIDIFile object: format, track count, time
base (TPQN, microseconds per quarter note and the derived microsecond
delta per tick with its division remainder), tempo, time signature and
the playback flags.  Fields follow the protected members of
MD_MIDIFile.h lines 885-897. -/
structure MFState where
  format : Nat
  trackCount : Nat
  ticksPerQuarterNote : Nat
  microsecondsPerQuarterNote : Nat
  microsecondDelta : Nat
  microsecondRemainder : Nat
  tempo : Nat
  timeSigN : Nat
  timeSigD : Nat
  paused : Bool
  looping : Bool
deriving DecidableEq

/-- Per-track state, following the protected members of MD_MFTrack
(MD_MIDIFile.h lines 512-518): id, the chunk bytes (byte range), the
current read offset, the end-of-track flag, the accumulated elapsed
time in microseconds, and the persistent midi_event of the last MIDI
message (none when running status has been cleared).  The pending
partially-assembled sysex buffer is listed in the data model of spec
section 3 (the Track entry). -/
structure MFTrack where
  trackId : Nat
  data : List Nat
  currOffset : Nat
  endOfTrack : Bool
  elapsedTimeTotal : Nat
  mev : Option MidiEv
  sysexBuf : List Nat
deriving DecidableEq

/-- Result of decoding one event at a track cursor: the updated track,
the updated shared state, and the event delivered to the caller, if
any. -/
structure ParseResult where
  track : MFTrack
  st : MFState
  delivered : Option Delivered
deriving DecidableEq

/-- Mark a track finished. -/
def setEOT (tk : MFTrack) : MFTrack := { tk with endOfTrack := true }

/-- Read n consecutive bytes starting at an offset; none when the read
crosses the end of the track data. -/
def readN (data : List Nat) : Nat → Nat → Option (List Nat)
  | _, 0 => some []
  | off, n + 1 =>
    match data[off]? with
    | none => none
    | some b =>
      match readN data (off + 1) n with
      | none => none
      | some rest => some (b :: rest)

/-- Modelled from the spec: the trailing data-byte count of a channel
MIDI message, determined from the status nibble (section 4.2: 2 bytes
for most, 1 byte for program change 0xCn and channel pressure 0xDn). -/
def midiDataLen (status : Nat) : Nat :=
  if status / 16 = 12 ∨ status / 16 = 13 then 1 else 2

/-- Modelled from the spec: MD_MIDIFile::calcMicrosecondDelta (declared
at MD_MIDIFile.h line 876, body not in the source tree).  Section 4.3:
microseconds-per-tick = microseconds-per-quarter-note / TPQN; the
division remainder is kept so the drift carry of section 4.2 step 4 can
compensate for the fractional part. -/
def calcMicrosecondDelta (st : MFState) : MFState :=
  { st with
    microsecondDelta := st.microsecondsPerQuarterNote / st.ticksPerQuarterNote,
    microsecondRemainder := st.microsecondsPerQuarterNote % st.ticksPerQuarterNote }

/-- Modelled from the spec: MD_MIDIFile::setTimeSignature (declared at
MD_MIDIFile.h line 660, body not in the source tree).  Stores numerator
and denominator in the two uint8_t cells of _timeSignature. -/
def setTimeSignature (st : MFState) (n d : Nat) : MFState :=
  { st with timeSigN := n % 256, timeSigD := d % 256 }

/-- Modelled from the spec: MD_MIDIFile::getTimeSignature (declared at
MD_MIDIFile.h line 609).  Per its doc comment the result packs the
numerator in the top byte and the denominator in the lower byte of a
16-bit value. -/
def getTimeSignature (st : MFState) : Nat :=
  st.timeSigN * 256 + st.timeSigD

/-- Modelled from the spec: internal handling of a meta event payload
(section 4.2): set tempo (type 0x51, 3-byte big-endian microseconds per
quarter note, applied verbatim and the tick time recomputed), time
signature (type 0x58, numerator and denominator-as-power-of-two); all
other types are skipped. -/
def applyMeta (st : MFState) (mtype : Nat) (payload : List Nat) : MFState :=
  if mtype = 0x51 then
    calcMicrosecondDelta
      { st with microsecondsPerQuarterNote := payload.foldl (fun a b => a * 256 + b) 0 }
  else if mtype = 0x58 then
    setTimeSignature st (payload.getD 0 0) (2 ^ payload.getD 1 0)
  else st

/-- Modelled from the spec: the meta-event arm of the event decoder
(section 4.2 step 4, status 0xFF): read the meta type and a VLQ length;
end of track (0x2F) finishes the track, tempo and time signature are
applied internally, every other type is skipped by advancing the cursor
past the payload.  Meta events clear running status and are never
delivered. -/
def parseMeta (st : MFState) (tk : MFTrack) (off : Nat) : ParseResult :=
  match tk.data[off + 1]? with
  | none => ⟨setEOT { tk with mev := none }, st, none⟩
  | some mtype =>
    match readVarLen tk.data (off + 2) with
    | .error _ => ⟨setEOT { tk with mev := none }, st, none⟩
    | .ok (len, off3) =>
      if mtype = 0x2F then
        ⟨{ tk with mev := none, currOffset := off3 + len, endOfTrack := true }, st, none⟩
      else
        match readN tk.data off3 len with
        | none => ⟨setEOT { tk with mev := none }, st, none⟩
        | some payload =>
          ⟨{ tk with mev := none, currOffset := off3 + len }, applyMeta st mtype payload, none⟩

/-- Modelled from the spec: the sysex arm of the event decoder (section
4.2 step 4, status 0xF0 or 0xF7): read a VLQ length, copy at most
min(length, 50) bytes into the sysex buffer (a 0xF0 status starts a new
message, 0xF7 continues one), skip any excess bytes; if the final byte
of the packet is 0xF7 the reassembled message is delivered without the
terminator, otherwise the buffer is held for a continuation packet.
Sysex clears running status. -/
def parseSysex (st : MFState) (tk : MFTrack) (off b : Nat) : ParseResult :=
  match readVarLen tk.data (off + 1) with
  | .error _ => ⟨setEOT { tk with mev := none }, st, none⟩
  | .ok (len, off2) =>
    match readN tk.data off2 (min len 50) with
    | none => ⟨setEOT { tk with mev := none }, st, none⟩
    | some chunk =>
      let buf := ((if b = 0xF0 then [] else tk.sysexBuf) ++ chunk).take 50
      let lastByte := if len = 0 then 0 else tk.data.getD (off2 + len - 1) 0
      if lastByte = 0xF7 then
        let outData := if buf.getLast? = some 0xF7 then buf.dropLast else buf
        ⟨{ tk with mev := none, sysexBuf := [], currOffset := off2 + len }, st,
          some (.sysex ⟨tk.trackId, outData.length, outData⟩)⟩
      else
        ⟨{ tk with mev := none, sysexBuf := buf, currOffset := off2 + len }, st, none⟩

/-- Modelled from the spec: the channel MIDI arm of the event decoder
(section 4.2 step 4, status 0x80-0xEF): read the trailing data bytes,
retain the event as the new running status, and deliver it. -/
def parseMidiMsg (st : MFState) (tk : MFTrack) (off b : Nat) : ParseResult :=
  match readN tk.data (off + 1) (midiDataLen b) with
  | none => ⟨setEOT tk, st, none⟩
  | some ds =>
    let ev : MidiEv := ⟨tk.trackId, b % 16, 1 + midiDataLen b, (b - b % 16) :: ds⟩
    ⟨{ tk with mev := some ev, currOffset := off + 1 + midiDataLen b }, st,
      some (.midi ev)⟩

/-- Modelled from the spec: the running-status arm of the event decoder
(section 4.2 step 4, first byte below 0x80): reuse the previously
retained status byte and channel, treating the byte read as the first
data byte.  Without a retained MIDI event the byte is invalid and the
track is finished. -/
def parseRunning (st : MFState) (tk : MFTrack) (off b : Nat) : ParseResult :=
  match tk.mev with
  | none => ⟨setEOT tk, st, none⟩
  | some prev =>
    let s := prev.data.headD 0
    match readN tk.data (off + 1) (midiDataLen s - 1) with
    | none => ⟨setEOT tk, st, none⟩
    | some ds =>
      let ev : MidiEv := ⟨tk.trackId, prev.channel, 1 + midiDataLen s, s :: b :: ds⟩
      ⟨{ tk with mev := some ev, currOffset := off + midiDataLen s }, st,
        some (.midi ev)⟩

/-- Modelled from the spec: dispatch of the event decoder on the status
byte read at the cursor (section 4.2 step 4).  Status bytes 0xF1-0xF6
and 0xF8-0xFE are invalid inside an SMF and finish the track. -/
def parseEventByte (st : MFState) (tk : MFTrack) (off b : Nat) : ParseResult :=
  if b = 0xFF then parseMeta st tk off
  else if b = 0xF0 ∨ b = 0xF7 then parseSysex st tk off b
  else if 0x80 ≤ b ∧ b ≤ 0xEF then parseMidiMsg st tk off b
  else if b < 0x80 then parseRunning st tk off b
  else ⟨setEOT tk, st, none⟩

/-- Modelled from the spec: MD_MFTrack::parseEvent (declared at
MD_MIDIFile.h line 509, body not in the source tree): decode the event
at the cursor per section 4.2 step 4. -/
def parseEvent (st : MFState) (tk : MFTrack) : ParseResult :=
  match tk.data[tk.currOffset]? with
  | none => ⟨setEOT tk, st, none⟩
  | some b => parseEventByte st tk tk.currOffset b

/-- Result of one poll of a track: updated shared state, updated track,
the event delivered to the caller (if any), and whether an event was
processed (meta events are processed without being delivered). -/
structure PollResult where
  st : MFState
  track : MFTrack
  delivered : Option Delivered
  processed : Bool
deriving DecidableEq

/-- Modelled from the spec: MD_MFTrack::getNextEvent (declared at
MD_MIDIFile.h line 455, body not in the source tree), the per-poll
algorithm of section 4.2: no work at end of track; add the elapsed
microseconds to the accumulated time; read the pending delta-time VLQ
at the cursor; if the accumulated time has not reached delta times the
microsecond delta, the event is not yet due; otherwise subtract the due
duration from the accumulated time (keeping the remainder, not
truncating), decode the event, and finish the track when the cursor has
reached the end of the declared data. -/
def trackPoll (st : MFState) (tk : MFTrack) (elapsed : Nat) : PollResult :=
  if tk.endOfTrack then ⟨st, tk, none, false⟩
  else
    let tk1 : MFTrack := { tk with elapsedTimeTotal := tk.elapsedTimeTotal + elapsed }
    match readVarLen tk1.data tk1.currOffset with
    | .error _ => ⟨st, setEOT tk1, none, false⟩
    | .ok (delta, off2) =>
      if tk1.elapsedTimeTotal < delta * st.microsecondDelta then ⟨st, tk1, none, false⟩
      else
        let tk2 : MFTrack :=
          { tk1 with
            elapsedTimeTotal := tk1.elapsedTimeTotal - delta * st.microsecondDelta,
            currOffset := off2 }
        let r := parseEvent st tk2
        let tk3 := if r.track.data.length ≤ r.track.currOffset then setEOT r.track else r.track
        ⟨r.st, tk3, r.delivered, true⟩

/-- Fuel bound for repeated polling of one track within a single call:
every processed event advances the cursor, so the byte length of the
track bounds the number of events. -/
def trackFuel (tk : MFTrack) : Nat := tk.data.length + 1

/-- Modelled from the spec: repeatedly poll one track until no further
event is processed (the TRACK_PRIORITY inner loop of
MD_MIDIFile::getNextEvent).  The elapsed time is added on the first
poll only. -/
def pollRepeat : Nat → MFState → MFTrack → Nat → MFState × MFTrack × List Delivered
  | 0, st, tk, _ => (st, tk, [])
  | f + 1, st, tk, e =>
    let r := trackPoll st tk e
    if r.processed then
      let rest := pollRepeat f r.st r.track 0
      (rest.1, rest.2.1, r.delivered.toList ++ rest.2.2)
    else (r.st, r.track, r.delivered.toList)

/-- Modelled from the spec: the TRACK_PRIORITY scheduling loop of
MD_MIDIFile::getNextEvent (MD_MIDIFile.h lines 806-825, TRACK_PRIORITY
set to 1 at line 334): give priority to all due events on one track
before moving on to the next, threading the shared state through the
tracks in ascending index order. -/
def runTP (e : Nat) : MFState → List MFTrack → MFState × List MFTrack × List Delivered
  | st, [] => (st, [], [])
  | st, tk :: rest =>
    let h := pollRepeat (trackFuel tk) st tk e
    let t := runTP e h.1 rest
    (t.1, h.2.1 :: t.2.1, h.2.2 ++ t.2.2)

/-- Modelled from the spec: MD_MIDIFile::isEOF (declared at
MD_MIDIFile.h line 685): true once every track has reached end of
track. -/
def isEOF (tks : List MFTrack) : Bool := tks.all (fun tk => tk.endOfTrack)

/-- Modelled from the spec: MD_MFTrack::restart (declared at
MD_MIDIFile.h line 479): reset the track cursor and state to the start
of its chunk. -/
def restartTrack (tk : MFTrack) : MFTrack :=
  { tk with currOffset := 0, endOfTrack := false, elapsedTimeTotal := 0,
            mev := none, sysexBuf := [] }

/-- Modelled from the spec: the looping restart of
MD_MIDIFile::looping (MD_MIDIFile.h lines 765-777): when looping is
enabled and the file has ended, a format 0 file restarts its single
track, while a format 1 file restarts every track except track 0 (the
global setup track, untouched on loop). -/
def loopRestart (st : MFState) (tks : List MFTrack) : List MFTrack :=
  if st.looping then
    if st.format = 0 then tks.map restartTrack
    else
      match tks with
      | [] => []
      | t0 :: rest => t0 :: rest.map restartTrack
  else tks

/-- Modelled from the spec: MD_MIDIFile::getNextEvent at file level
(MD_MIDIFile.h lines 806-825): a no-op while paused; when every track
has finished, looping (if enabled) restarts the tracks instead of
stopping; otherwise the tracks are polled under the TRACK_PRIORITY
policy. -/
def getNextEvent (st : MFState) (tks : List MFTrack) (elapsed : Nat) :
    MFState × List MFTrack × List Delivered :=
  if st.paused then (st, tks, [])
  else if isEOF tks then (st, loopRestart st tks, [])
  else runTP elapsed st tks

/-- Modelled from the spec: one tick of the drift-carry time base
(sections 4.3 and 8).  Given the microseconds per quarter note, the
TPQN and the fractional carry (in 1/TPQN microsecond units), produce
the duration of the next tick and the new carry: the division remainder
is accumulated and paid out as one extra microsecond whenever it
reaches TPQN, instead of being truncated away. -/
def tickStep (qn tpqn carry : Nat) : Nat × Nat :=
  if tpqn ≤ carry + qn % tpqn then (qn / tpqn + 1, carry + qn % tpqn - tpqn)
  else (qn / tpqn, carry + qn % tpqn)

/-- Total elapsed microseconds reported by the drift-carry time base
after n ticks, together with the pending carry. -/
def elapsedAfter (qn tpqn : Nat) : Nat → Nat × Nat
  | 0 => (0, 0)
  | n + 1 =>
    let p := elapsedAfter qn tpqn n
    let s := tickStep qn tpqn p.2
    (p.1 + s.1, s.2)

/-- The defaults of the library: format 1, TPQN 48, tempo 120
(500000 microseconds per quarter note, hence a microsecond delta of
10416 with remainder 32), time signature 4/4, not paused, not
looping. -/
def initState : MFState :=
  ⟨1, 0, 48, 500000, 10416, 32, 120, 4, 4, false, false⟩

/-- The bytes of the chunk magic MThd. -/
def mthdMagic : List Nat := [77, 84, 104, 100]

/-- The bytes of the chunk magic MTrk. -/
def mtrkMagic : List Nat := [77, 84, 114, 107]

/-- Big-endian fixed-width integer read: n bytes starting at an offset
(missing bytes read as 0). -/
def readMB (bytes : List Nat) (off : Nat) : Nat → Nat
  | 0 => 0
  | n + 1 => readMB bytes off n * 256 + bytes.getD (off + n) 0

/-- Modelled from the spec: the per-track chunk scan of
MD_MIDIFile::load (section 4.4): at each chunk, require the MTrk magic
(error code (index+1)*10) and require the declared chunk length to stay
inside the file (error code (index+1)*10+1); the track index is encoded
in the code so every code is distinct, as section 7 requires.  Returns
the error code (-1 on success) and the number of tracks created. -/
def loadTracks (bytes : List Nat) : Nat → Nat → Nat → Int × Nat
  | _, i, 0 => (-1, i)
  | off, i, n + 1 =>
    if (bytes.drop off).take 4 ≠ mtrkMagic then (((i : Int) + 1) * 10, i)
    else
      let len := readMB bytes (off + 4) 4
      if bytes.length < off + 8 + len then (((i : Int) + 1) * 10 + 1, i)
      else loadTracks bytes (off + 8 + len) (i + 1) n

/-- Modelled from the spec: MD_MIDIFile::load (declared at
MD_MIDIFile.h line 726, body not in the source tree).  Validation
steps, each with its distinct code per the header doc comment (lines
714-724) and section 7: 0 blank file name, 2 storage open failure,
3 wrong MThd magic, 4 wrong header size, 5 format outside 0 and 1
(type 2 unsupported), 6 format 0 declaring more than one track,
7 more than MIDI_MAX_TRACKS (16) tracks, then the per-track chunk
scan.  Returns the error code (-1 on success) and the number of tracks
created. -/
def loadSMF (fileName : List Nat) (openOk : Bool) (bytes : List Nat) : Int × Nat :=
  if fileName = [] then (0, 0)
  else if openOk = false then (2, 0)
  else if bytes.take 4 ≠ mthdMagic then (3, 0)
  else if readMB bytes 4 4 ≠ 6 then (4, 0)
  else
    let fmt := readMB bytes 8 2
    if fmt ≠ 0 ∧ fmt ≠ 1 then (5, 0)
    else
      let n := readMB bytes 10 2
      if fmt = 0 ∧ n ≠ 1 then (6, 0)
      else if 16 < n then (7, 0)
      else loadTracks bytes 14 0 n

/-- Modelled from the spec: the TRACK_PRIORITY event ordering of
MD_MIDIFile::getNextEvent (MD_MIDIFile.h lines 812-815), abstracted
over the per-track lists of events due in one call: all due events of a
track are delivered before moving on to the next track. -/
def trackPriorityOrder {α : Type} (dueEvents : List (List α)) : List α :=
  dueEvents.flatten

/-- Heads taken by one round-robin pass (tracks with no remaining due
event are skipped). -/
def rrHeads {α : Type} (ts : List (List α)) : List α :=
  ts.filterMap List.head?

/-- Remaining per-track events after one round-robin pass. -/
def rrTails {α : Type} (ts : List (List α)) : List (List α) :=
  ts.map List.tail

/-- Total number of pending events. -/
def totalLen {α : Type} (ts : List (List α)) : Nat :=
  (ts.map List.length).sum

/-- Round-robin passes, at most one event per track per pass, with
explicit fuel. -/
def rrRun {α : Type} : Nat → List (List α) → List α
  | 0, _ => []
  | f + 1, ts =>
    if totalLen ts = 0 then []
    else rrHeads ts ++ rrRun f (rrTails ts)

/-- Modelled from the spec: the EVENT_PRIORITY event ordering of
MD_MIDIFile::getNextEvent (MD_MIDIFile.h lines 812-815), abstracted
over the per-track lists of events due in one call: one event from each
track, cycling through all tracks round robin until no events are
left. -/
def eventPriorityOrder {α : Type} (dueEvents : List (List α)) : List α :=
  rrRun (totalLen dueEvents) dueEvents

theorem vlqRoundTrip (v : Nat) (hv : v ≤ 0x0FFFFFFF) (rest : List Nat) :
    readVarLen (vlqEncode v ++ rest) 0 = .ok (v, (vlqEncode v).length) := by
  by_cases h1 : v < 128
  · simp only [vlqEncode, if_pos h1, readVarLen, readVarLenAux, List.cons_append,
      List.nil_append, List.getElem?_cons_zero, if_pos h1]
    simp only [Except.ok.injEq, Prod.mk.injEq, List.length_cons, List.length_nil]
    exact ⟨by omega, by trivial⟩
  · by_cases h2 : v < 16384
    · simp only [vlqEncode, if_neg h1, if_pos h2, readVarLen, readVarLenAux,
        List.cons_append, List.nil_append, List.getElem?_cons_zero,
        List.getElem?_cons_succ]
      rw [if_neg (by omega), if_pos (by omega)]
      simp only [Except.ok.injEq, Prod.mk.injEq, List.length_cons, List.length_nil]
      exact ⟨by omega, by trivial⟩
    · by_cases h3 : v < 2097152
      · simp only [vlqEncode, if_neg h1, if_neg h2, if_pos h3, readVarLen, readVarLenAux,
          List.cons_append, List.nil_append, List.getElem?_cons_zero,
          List.getElem?_cons_succ]
        rw [if_neg (by omega), if_neg (by omega), if_pos (by omega)]
        simp only [Except.ok.injEq, Prod.mk.injEq, List.length_cons, List.length_nil]
        exact ⟨by omega, by trivial⟩
      · simp only [vlqEncode, if_neg h1, if_neg h2, if_neg h3, readVarLen, readVarLenAux,
          List.cons_append, List.nil_append, List.getElem?_cons_zero,
          List.getElem?_cons_succ]
        rw [if_neg (by omega), if_neg (by omega), if_neg (by omega), if_pos (by omega)]
        simp only [Except.ok.injEq, Prod.mk.injEq, List.length_cons, List.length_nil]
        exact ⟨by omega, by trivial⟩

theorem vlqContinuationFails (bs : List Nat) (hlen : 5 ≤ bs.length)
    (hcont : ∀ b ∈ bs, 128 ≤ b) :
    readVarLen bs 0 = .error .MalformedEncoding := by
  match bs, hlen with
  | b0 :: b1 :: b2 :: b3 :: tail, _ =>
    have c0 : 128 ≤ b0 := hcont b0 (by simp)
    have c1 : 128 ≤ b1 := hcont b1 (by simp)
    have c2 : 128 ≤ b2 := hcont b2 (by simp)
    have c3 : 128 ≤ b3 := hcont b3 (by simp)
    simp only [readVarLen, readVarLenAux, List.getElem?_cons_zero, List.getElem?_cons_succ]
    rw [if_neg (by omega), if_neg (by omega), if_neg (by omega), if_neg (by omega)]

theorem parseEventAtByte (st : MFState) (tk : MFTrack) (b : Nat)
    (h : tk.data[tk.currOffset]? = some b) :
    parseEvent st tk = parseEventByte st tk tk.currOffset b := by
  unfold parseEvent
  rw [h]

theorem parseEventKeepsElapsed (st : MFState) (tk : MFTrack) :
    (parseEvent st tk).track.elapsedTimeTotal = tk.elapsedTimeTotal := by
  unfold parseEvent parseEventByte parseMeta parseSysex parseMidiMsg parseRunning setEOT
  repeat' split
  all_goals dsimp only
  all_goals repeat' split
  all_goals rfl

theorem tickStepEq (qn tpqn carry : Nat) :
    tickStep qn tpqn carry =
      if tpqn ≤ carry + qn % tpqn then (qn / tpqn + 1, carry + qn % tpqn - tpqn)
      else (qn / tpqn, carry + qn % tpqn) := rfl

theorem elapsedAfterClosed (n : Nat) :
    elapsedAfter 500000 48 n = (n * 500000 / 48, n * 500000 % 48) := by
  induction n with
  | zero => rfl
  | succ n ih =>
    have h1 : elapsedAfter 500000 48 (n + 1) =
        ((elapsedAfter 500000 48 n).1 + (tickStep 500000 48 (elapsedAfter 500000 48 n).2).1,
         (tickStep 500000 48 (elapsedAfter 500000 48 n).2).2) := rfl
    have hm : (n + 1) * 500000 = n * 500000 + 500000 := by ring
    rw [h1, ih, hm]
    generalize n * 500000 = m
    rw [tickStepEq]
    by_cases hc : 48 ≤ (m / 48, m % 48).2 + 500000 % 48
    · rw [if_pos hc, Prod.mk.injEq]
      simp only at hc ⊢
      constructor <;> omega
    · rw [if_neg hc, Prod.mk.injEq]
      simp only at hc ⊢
      constructor <;> omega

theorem rrHeadsOfShort {α : Type} (ts : List (List α))
    (h : ∀ l ∈ ts, l.length ≤ 1) : rrHeads ts = ts.flatten := by
  induction ts with
  | nil => rfl
  | cons l ls ih =>
    have hl : l.length ≤ 1 := h l (by simp)
    have hrec : rrHeads ls = ls.flatten := ih (fun x hx => h x (by simp [hx]))
    match l, hl with
    | [], _ => simpa [rrHeads, List.filterMap_cons] using hrec
    | [a], _ => simpa [rrHeads, List.filterMap_cons] using hrec

theorem totalLenTailsOfShort {α : Type} (ts : List (List α))
    (h : ∀ l ∈ ts, l.length ≤ 1) : totalLen (rrTails ts) = 0 := by
  induction ts with
  | nil => rfl
  | cons l ls ih =>
    have hl : l.length ≤ 1 := h l (by simp)
    have hrec := ih (fun x hx => h x (by simp [hx]))
    simp only [rrTails, totalLen, List.map_cons, List.sum_cons] at hrec ⊢
    have htail : l.tail.length = 0 := by
      cases l with
      | nil => rfl
      | cons a t =>
        simp only [List.length_cons] at hl
        simp only [List.tail_cons]
        omega
    omega

theorem rrRunOfEmpty {α : Type} (f : Nat) (ts : List (List α))
    (h : totalLen ts = 0) : rrRun f ts = [] := by
  cases f with
  | zero => rfl
  | succ f => simp [rrRun, h]

theorem flattenOfEmpty {α : Type} (ts : List (List α))
    (h : totalLen ts = 0) : ts.flatten = [] := by
  have : ts.flatten.length = 0 := by
    simpa [totalLen, List.length_flatten] using h
  exact List.eq_nil_of_length_eq_zero this

theorem runTPAppend (e : Nat) (st : MFState) (xs ys : List MFTrack) :
    runTP e st (xs ++ ys) =
      ((runTP e (runTP e st xs).1 ys).1,
       (runTP e st xs).2.1 ++ (runTP e (runTP e st xs).1 ys).2.1,
       (runTP e st xs).2.2 ++ (runTP e (runTP e st xs).1 ys).2.2) := by
  induction xs generalizing st with
  | nil => simp [runTP]
  | cons tk rest ih => simp [runTP, ih, List.append_assoc]

theorem pollRepeatEOT (f : Nat) (st : MFState) (tk : MFTrack) (e : Nat)
    (h : tk.endOfTrack = true) : pollRepeat f st tk e = (st, tk, []) := by
  cases f with
  | zero => rfl
  | succ f => simp [pollRepeat, trackPoll, h]

theorem trackPollInvalidStatus (st : MFState) (tk : MFTrack) (e delta off2 b : Nat)
    (hE : tk.endOfTrack = false)
    (hD : readVarLen tk.data tk.currOffset = .ok (delta, off2))
    (hDue : delta * st.microsecondDelta ≤ tk.elapsedTimeTotal + e)
    (hB : tk.data[off2]? = some b)
    (h1 : 0xF1 ≤ b) (h2 : b ≤ 0xFE) (h3 : b ≠ 0xF7) :
    trackPoll st tk e =
      ⟨st,
       setEOT { tk with
                elapsedTimeTotal := tk.elapsedTimeTotal + e - delta * st.microsecondDelta,
                currOffset := off2 },
       none, true⟩ := by
  unfold trackPoll
  have hEne : ¬ (tk.endOfTrack = true) := by simp [hE]
  rw [if_neg hEne]
  dsimp only
  rw [hD]
  dsimp only
  have hlt : ¬ (tk.elapsedTimeTotal + e < delta * st.microsecondDelta) := by omega
  rw [if_neg hlt]
  have hbyte :
      ({ tk with
         elapsedTimeTotal := tk.elapsedTimeTotal + e - delta * st.microsecondDelta,
         currOffset := off2 } : MFTrack).data[
        ({ tk with
           elapsedTimeTotal := tk.elapsedTimeTotal + e - delta * st.microsecondDelta,
           currOffset := off2 } : MFTrack).currOffset]? = some b := hB
  rw [parseEventAtByte _ _ _ hbyte]
  unfold parseEventByte
  have c1 : ¬ (b = 255) := by omega
  have c2 : ¬ (b = 240 ∨ b = 247) := by omega
  have c3 : ¬ (128 ≤ b ∧ b ≤ 239) := by omega
  have c4 : ¬ (b < 128) := by omega
  rw [if_neg c1, if_neg c2, if_neg c3, if_neg c4]
  dsimp only
  split <;> rfl

theorem pollRepeatInvalidStatus (st : MFState) (tk : MFTrack) (e delta off2 b : Nat)
    (hE : tk.endOfTrack = false)
    (hD : readVarLen tk.data tk.currOffset = .ok (delta, off2))
    (hDue : delta * st.microsecondDelta ≤ tk.elapsedTimeTotal + e)
    (hB : tk.data[off2]? = some b)
    (h1 : 0xF1 ≤ b) (h2 : b ≤ 0xFE) (h3 : b ≠ 0xF7) :
    pollRepeat (trackFuel tk) st tk e =
      (st,
       setEOT { tk with
                elapsedTimeTotal := tk.elapsedTimeTotal + e - delta * st.microsecondDelta,
                currOffset := off2 },
       []) := by
  have hfuel : trackFuel tk = tk.data.length + 1 := rfl
  rw [hfuel]
  simp only [pollRepeat, trackPollInvalidStatus st tk e delta off2 b hE hD hDue hB h1 h2 h3]
  rw [pollRepeatEOT _ _ _ _ rfl]
  simp

theorem parseMidiOk (st : MFState) (tk : MFTrack) (b : Nat) (ds : List Nat)
    (hb : tk.data[tk.currOffset]? = some b)
    (h1 : 128 ≤ b) (h2 : b ≤ 239)
    (hread : readN tk.data (tk.currOffset + 1) (midiDataLen b) = some ds) :
    parseEvent st tk =
      ⟨{ tk with
         mev := some ⟨tk.trackId, b % 16, 1 + midiDataLen b, (b - b % 16) :: ds⟩,
         currOffset := tk.currOffset + 1 + midiDataLen b },
       st,
       some (.midi ⟨tk.trackId, b % 16, 1 + midiDataLen b, (b - b % 16) :: ds⟩)⟩ := by
  rw [parseEventAtByte _ _ _ hb]
  unfold parseEventByte
  have c1 : ¬ (b = 255) := by omega
  have c2 : ¬ (b = 240 ∨ b = 247) := by omega
  have c3 : 128 ≤ b ∧ b ≤ 239 := ⟨h1, h2⟩
  rw [if_neg c1, if_neg c2, if_pos c3]
  unfold parseMidiMsg
  rw [hread]

theorem parseRunningOk (st : MFState) (tk : MFTrack) (b : Nat) (prev : MidiEv)
    (ds : List Nat)
    (hmev : tk.mev = some prev)
    (hb : tk.data[tk.currOffset]? = some b) (hlt : b < 128)
    (hread : readN tk.data (tk.currOffset + 1) (midiDataLen (prev.data.headD 0) - 1)
      = some ds) :
    parseEvent st tk =
      ⟨{ tk with
         mev := some ⟨tk.trackId, prev.channel, 1 + midiDataLen (prev.data.headD 0),
                      prev.data.headD 0 :: b :: ds⟩,
         currOffset := tk.currOffset + midiDataLen (prev.data.headD 0) },
       st,
       some (.midi ⟨tk.trackId, prev.channel, 1 + midiDataLen (prev.data.headD 0),
                    prev.data.headD 0 :: b :: ds⟩)⟩ := by
  rw [parseEventAtByte _ _ _ hb]
  unfold parseEventByte
  have c1 : ¬ (b = 255) := by omega
  have c2 : ¬ (b = 240 ∨ b = 247) := by omega
  have c3 : ¬ (128 ≤ b ∧ b ≤ 239) := by omega
  rw [if_neg c1, if_neg c2, if_neg c3, if_pos hlt]
  unfold parseRunning
  rw [hmev]
  dsimp only
  rw [hread]

theorem parseRunningNone (st : MFState) (tk : MFTrack) (b : Nat)
    (hmev : tk.mev = none)
    (hb : tk.data[tk.currOffset]? = some b) (hlt : b < 128) :
    parseEvent st tk = ⟨setEOT tk, st, none⟩ := by
  rw [parseEventAtByte _ _ _ hb]
  unfold parseEventByte
  have c1 : ¬ (b = 255) := by omega
  have c2 : ¬ (b = 240 ∨ b = 247) := by omega
  have c3 : ¬ (128 ≤ b ∧ b ≤ 239) := by omega
  rw [if_neg c1, if_neg c2, if_neg c3, if_pos hlt]
  unfold parseRunning
  rw [hmev]

theorem parseMetaClears (st : MFState) (tk : MFTrack)
    (hb : tk.data[tk.currOffset]? = some 255) :
    (parseEvent st tk).track.mev = none := by
  rw [parseEventAtByte _ _ _ hb]
  unfold parseEventByte
  rw [if_pos rfl]
  unfold parseMeta setEOT
  repeat' split
  all_goals rfl

theorem parseSysexClears (st : MFState) (tk : MFTrack) (b : Nat)
    (hor : b = 240 ∨ b = 247)
    (hb : tk.data[tk.currOffset]? = some b) :
    (parseEvent st tk).track.mev = none := by
  rw [parseEventAtByte _ _ _ hb]
  unfold parseEventByte
  have c1 : ¬ (b = 255) := by omega
  rw [if_neg c1, if_pos hor]
  unfold parseSysex setEOT
  repeat' split
  all_goals dsimp only
  all_goals repeat' split
  all_goals rfl

theorem parseInvalidStatus (st : MFState) (tk : MFTrack) (b : Nat)
    (hb : tk.data[tk.currOffset]? = some b)
    (h1 : 241 ≤ b) (h2 : b ≤ 254) (h3 : b ≠ 247) :
    parseEvent st tk = ⟨setEOT tk, st, none⟩ := by
  rw [parseEventAtByte _ _ _ hb]
  unfold parseEventByte
  have c1 : ¬ (b = 255) := by omega
  have c2 : ¬ (b = 240 ∨ b = 247) := by omega
  have c3 : ¬ (128 ≤ b ∧ b ≤ 239) := by omega
  have c4 : ¬ (b < 128) := by omega
  rw [if_neg c1, if_neg c2, if_neg c3, if_neg c4]

theorem trackPollNotDue (st : MFState) (tk : MFTrack) (e delta off2 : Nat)
    (hE : tk.endOfTrack = false)
    (hD : readVarLen tk.data tk.currOffset = .ok (delta, off2))
    (hlt : tk.elapsedTimeTotal + e < delta * st.microsecondDelta) :
    trackPoll st tk e =
      ⟨st, { tk with elapsedTimeTotal := tk.elapsedTimeTotal + e }, none, false⟩ := by
  unfold trackPoll
  have hEne : ¬ (tk.endOfTrack = true) := by simp [hE]
  rw [if_neg hEne]
  dsimp only
  rw [hD]
  dsimp only
  rw [if_pos hlt]

theorem trackPollVlqFail (st : MFState) (tk : MFTrack) (e : Nat) (err : VlqError)
    (hE : tk.endOfTrack = false)
    (hErr : readVarLen tk.data tk.currOffset = .error err) :
    trackPoll st tk e =
      ⟨st, setEOT { tk with elapsedTimeTotal := tk.elapsedTimeTotal + e }, none, false⟩ := by
  unfold trackPoll
  have hEne : ¬ (tk.endOfTrack = true) := by simp [hE]
  rw [if_neg hEne]
  dsimp only
  rw [hErr]

theorem trackPollDueElapsed (st : MFState) (tk : MFTrack) (e delta off2 : Nat)
    (hE : tk.endOfTrack = false)
    (hD : readVarLen tk.data tk.currOffset = .ok (delta, off2))
    (hDue : delta * st.microsecondDelta ≤ tk.elapsedTimeTotal + e) :
    (trackPoll st tk e).track.elapsedTimeTotal =
      tk.elapsedTimeTotal + e - delta * st.microsecondDelta := by
  unfold trackPoll
  have hEne : ¬ (tk.endOfTrack = true) := by simp [hE]
  rw [if_neg hEne]
  dsimp only
  rw [hD]
  dsimp only
  have hlt : ¬ (tk.elapsedTimeTotal + e < delta * st.microsecondDelta) := by omega
  rw [if_neg hlt]
  dsimp only
  split
  · rw [setEOT]
    dsimp only
    rw [parseEventKeepsElapsed]
  · rw [parseEventKeepsElapsed]

theorem parseSysexTruncates (st : MFState) (tk : MFTrack) (len off2 : Nat)
    (chunk : List Nat)
    (hE : tk.endOfTrack = false)
    (hb : tk.data[tk.currOffset]? = some 240)
    (hvlq : readVarLen tk.data (tk.currOffset + 1) = .ok (len, off2))
    (hlen : 50 < len)
    (hchunk : readN tk.data off2 50 = some chunk) :
    (parseEvent st tk).track.endOfTrack = false ∧
    (parseEvent st tk).track.currOffset = off2 + len ∧
    (parseEvent st tk).track.sysexBuf.length ≤ 50 ∧
    (∀ s : SysexEv, (parseEvent st tk).delivered = some (.sysex s) → s.size ≤ 50) := by
  rw [parseEventAtByte _ _ _ hb]
  unfold parseEventByte
  have c1 : ¬ ((240 : Nat) = 255) := by omega
  have c2 : (240 : Nat) = 240 ∨ (240 : Nat) = 247 := Or.inl rfl
  rw [if_neg c1, if_pos c2]
  unfold parseSysex
  rw [hvlq]
  dsimp only
  have hmin : min len 50 = 50 := by omega
  rw [hmin, hchunk]
  dsimp only
  rw [if_pos (rfl : (240 : Nat) = 240)]
  have h0 : ¬ (len = 0) := by omega
  rw [if_neg h0]
  simp only [List.nil_append]
  have hbuf : (List.take 50 chunk).length ≤ 50 := by
    rw [List.length_take]
    omega
  split
  · refine ⟨hE, rfl, by simp, ?_⟩
    intro s hs
    simp only [Option.some_inj, Delivered.sysex.injEq] at hs
    cases hs
    dsimp only
    split
    · rw [List.length_dropLast]
      omega
    · exact hbuf
  · refine ⟨hE, rfl, hbuf, ?_⟩
    intro s hs
    exact Option.noConfusion hs

/-- C10: getTimeSignature returns the current time signature packed into
a single 16-bit value with the numerator in the top byte and the
denominator in the lower byte: for all byte-range n and d (the
parameters are uint8_t), after setTimeSignature(n, d) it returns
n * 256 + d, which is the value (n shifted left by 8) bitwise-or d. -/
theorem mdC10 (st : MFState) (n d : Nat) (hn : n < 256) (hd : d < 256) :
    getTimeSignature (setTimeSignature st n d) = n * 256 + d := by
  unfold getTimeSignature setTimeSignature
  dsimp only
  rw [Nat.mod_eq_of_lt hn, Nat.mod_eq_of_lt hd]

theorem mdC10Witness : getTimeSignature (setTimeSignature initState 3 4) = 3 * 256 + 4 :=
  mdC10 initState 3 4 (by decide) (by decide)

/-- C5: for every integer v in [0, 0x0FFFFFFF], decoding the VLQ
encoding of v returns v and advances the offset by the length of the
encoding (round trip); and decoding a byte sequence of 5 or more bytes
that all have the continuation bit set fails with MalformedEncoding
instead of returning a value. -/
theorem mdC5 :
    (∀ v : Nat, v ≤ 0x0FFFFFFF → ∀ rest : List Nat,
       readVarLen (vlqEncode v ++ rest) 0 = .ok (v, (vlqEncode v).length)) ∧
    (∀ bs : List Nat, 5 ≤ bs.length → (∀ b ∈ bs, 128 ≤ b) →
       readVarLen bs 0 = .error .MalformedEncoding) :=
  ⟨fun v hv rest => vlqRoundTrip v hv rest,
   fun bs h1 h2 => vlqContinuationFails bs h1 h2⟩

theorem mdC5Witness :
    readVarLen (vlqEncode 300 ++ [7]) 0 = .ok (300, (vlqEncode 300).length) ∧
    readVarLen [200, 201, 202, 203, 204] 0 = .error .MalformedEncoding :=
  ⟨mdC5.1 300 (by decide) [7],
   mdC5.2 [200, 201, 202, 203, 204] (by decide) (by decide)⟩

/-- C2 counterexample: the two scheduling policies do not deliver the
same final ordering for every poll.  When track 0 has two due events
and track 1 has one, track priority delivers track 0 completely first
while event priority interleaves round robin, so the orderings
differ. -/
theorem mdC2Counter :
    eventPriorityOrder [[0, 1], [2]] ≠ trackPriorityOrder [[0, 1], [2]] := by
  decide

/-- C2 (amended): when at most one event is due on each track within a
call, the two compile-time scheduling policies of getNextEvent deliver
the same final ordering, namely the due events in ascending track index
order; with more than one due event on a single track the orderings
differ (track priority groups by track, event priority interleaves). -/
theorem mdC2 {α : Type} (ds : List (List α)) (h : ∀ l ∈ ds, l.length ≤ 1) :
    eventPriorityOrder ds = trackPriorityOrder ds ∧
    eventPriorityOrder ds = ds.flatten := by
  have key : eventPriorityOrder ds = ds.flatten := by
    unfold eventPriorityOrder
    cases hc : totalLen ds with
    | zero => rw [rrRunOfEmpty _ _ hc, flattenOfEmpty _ hc]
    | succ f =>
      unfold rrRun
      rw [if_neg (by omega)]
      rw [rrRunOfEmpty _ _ (totalLenTailsOfShort ds h), rrHeadsOfShort ds h]
      simp
  exact ⟨key, key⟩

theorem mdC2Witness :
    eventPriorityOrder [[5], [], [7]] = trackPriorityOrder [[5], [], [7]] ∧
    eventPriorityOrder [[5], [], [7]] = [[5], [], [7]].flatten :=
  mdC2 [[5], [], [7]] (by decide)

/-- C1: with the defaults TPQN 48 and 500000 microseconds per quarter
note, the microsecond delta per tick is 10416 with remainder 32 of 48;
the drift-carry time base pays the remainder out instead of truncating,
so over any run of up to 10000 ticks the reported elapsed time stays
within one tick duration (indeed within one microsecond, stated here
scaled by 48) of the exact value; and when a due event fires, the due
duration is subtracted from the accumulated elapsed time, carrying the
excess forward rather than resetting it. -/
theorem mdC1 :
    (calcMicrosecondDelta initState).microsecondDelta = 10416 ∧
    (calcMicrosecondDelta initState).microsecondRemainder = 32 ∧
    (∀ n : Nat, n ≤ 10000 →
       48 * (elapsedAfter 500000 48 n).1 ≤ n * 500000 ∧
       n * 500000 - 48 * (elapsedAfter 500000 48 n).1 < 500000) ∧
    (∀ (st : MFState) (tk : MFTrack) (e delta off2 : Nat),
       tk.endOfTrack = false →
       readVarLen tk.data tk.currOffset = .ok (delta, off2) →
       delta * st.microsecondDelta ≤ tk.elapsedTimeTotal + e →
       (trackPoll st tk e).track.elapsedTimeTotal =
         tk.elapsedTimeTotal + e - delta * st.microsecondDelta) := by
  refine ⟨rfl, rfl, ?_, ?_⟩
  · intro n hn
    rw [elapsedAfterClosed]
    dsimp only
    generalize n * 500000 = m
    constructor <;> omega
  · intro st tk e delta off2 hE hD hDue
    exact trackPollDueElapsed st tk e delta off2 hE hD hDue

theorem mdC1Witness :
    (48 * (elapsedAfter 500000 48 10000).1 ≤ 10000 * 500000 ∧
     10000 * 500000 - 48 * (elapsedAfter 500000 48 10000).1 < 500000) ∧
    (trackPoll initState ⟨0, [1, 144, 60, 64], 0, false, 0, none, []⟩ 20000).track.elapsedTimeTotal
      = 0 + 20000 - 1 * initState.microsecondDelta :=
  ⟨mdC1.2.2.1 10000 (by decide),
   mdC1.2.2.2 initState ⟨0, [1, 144, 60, 64], 0, false, 0, none, []⟩ 20000 1 1 rfl rfl
     (by decide)⟩

/-- C3: load returns a distinct error code identifying the first
structural validation that fails: blank file name 0, storage open
failure 2, wrong MThd magic 3, wrong header size 4, format outside 0
and 1 code 5, format 0 with several tracks 6, track count above the
maximum 7, and per track with the index encoded in the code, missing
MTrk magic (index+1)*10 and chunk length past end of file
(index+1)*10+1; these codes are pairwise distinct; a file whose format
field is 2 fails with the unsupported-format code 5 and zero tracks
are created. -/
theorem mdC3 :
    (∀ (fileName : List Nat) (bytes : List Nat),
       fileName ≠ [] →
       bytes.take 4 = mthdMagic →
       readMB bytes 4 4 = 6 →
       readMB bytes 8 2 = 2 →
       loadSMF fileName true bytes = (5, 0)) ∧
    List.Pairwise (fun a b => a ≠ b) ([0, 2, 3, 4, 5, 6, 7] : List Int) ∧
    (∀ i e : Nat, e ≤ 1 → ((i : Int) + 1) * 10 + e ∉ ([0, 2, 3, 4, 5, 6, 7] : List Int)) ∧
    (∀ i j e f : Nat, e ≤ 1 → f ≤ 1 →
       ((i : Int) + 1) * 10 + e = ((j : Int) + 1) * 10 + f → i = j ∧ e = f) ∧
    (∀ (bytes : List Nat) (off i n : Nat), (bytes.drop off).take 4 ≠ mtrkMagic →
       loadTracks bytes off i (n + 1) = (((i : Int) + 1) * 10, i)) ∧
    (∀ (bytes : List Nat) (off i n : Nat), (bytes.drop off).take 4 = mtrkMagic →
       bytes.length < off + 8 + readMB bytes (off + 4) 4 →
       loadTracks bytes off i (n + 1) = (((i : Int) + 1) * 10 + 1, i)) := by
  refine ⟨?_, by decide, ?_, ?_, ?_, ?_⟩
  · intro fileName bytes hname h3 h4 h5
    unfold loadSMF
    rw [if_neg hname]
    rw [if_neg (by simp)]
    rw [if_neg (by simp [h3])]
    rw [if_neg (by simp [h4])]
    dsimp only
    rw [if_pos (by rw [h5]; exact ⟨by decide, by decide⟩)]
  · intro i e he hmem
    simp only [List.mem_cons, List.not_mem_nil, or_false] at hmem
    rcases hmem with h | h | h | h | h | h | h <;> omega
  · intro i j e f he hf heq
    constructor <;> omega
  · intro bytes off i n hmagic
    unfold loadTracks
    rw [if_pos hmagic]
  · intro bytes off i n hmagic hlen
    unfold loadTracks
    rw [if_neg (by simp [hmagic])]
    dsimp only
    rw [if_pos hlen]

theorem mdC3Witness :
    loadSMF [65] true (mthdMagic ++ [0, 0, 0, 6, 0, 2, 0, 1, 0, 48]) = (5, 0) :=
  mdC3.1 [65] (mthdMagic ++ [0, 0, 0, 6, 0, 2, 0, 1, 0, 48])
    (by decide) (by decide) (by decide) (by decide)

/-- C4: during track decoding, a byte below 0x80 read at an event's
status position is decoded by reusing the previously retained MIDI
status byte and channel, with that byte as the first data byte; every
meta event and every sysex event clears the retained running status;
and a data byte with no retained status (for instance right after a
meta or sysex event) is invalid and finishes the track, so running
status never carries across a meta or sysex event. -/
theorem mdC4 :
    (∀ (st : MFState) (tk : MFTrack) (b : Nat) (prev : MidiEv) (ds : List Nat),
       tk.mev = some prev →
       tk.data[tk.currOffset]? = some b → b < 128 →
       readN tk.data (tk.currOffset + 1) (midiDataLen (prev.data.headD 0) - 1) = some ds →
       parseEvent st tk =
         ⟨{ tk with
            mev := some ⟨tk.trackId, prev.channel, 1 + midiDataLen (prev.data.headD 0),
                         prev.data.headD 0 :: b :: ds⟩,
            currOffset := tk.currOffset + midiDataLen (prev.data.headD 0) },
          st,
          some (.midi ⟨tk.trackId, prev.channel, 1 + midiDataLen (prev.data.headD 0),
                       prev.data.headD 0 :: b :: ds⟩)⟩) ∧
    (∀ (st : MFState) (tk : MFTrack),
       tk.data[tk.currOffset]? = some 255 → (parseEvent st tk).track.mev = none) ∧
    (∀ (st : MFState) (tk : MFTrack) (b : Nat), (b = 240 ∨ b = 247) →
       tk.data[tk.currOffset]? = some b → (parseEvent st tk).track.mev = none) ∧
    (∀ (st : MFState) (tk : MFTrack) (b : Nat),
       tk.mev = none → tk.data[tk.currOffset]? = some b → b < 128 →
       (parseEvent st tk).delivered = none ∧ (parseEvent st tk).track.endOfTrack = true) := by
  refine ⟨?_, ?_, ?_, ?_⟩
  · intro st tk b prev ds hmev hb hlt hread
    exact parseRunningOk st tk b prev ds hmev hb hlt hread
  · intro st tk hb
    exact parseMetaClears st tk hb
  · intro st tk b hor hb
    exact parseSysexClears st tk b hor hb
  · intro st tk b hmev hb hlt
    rw [parseRunningNone st tk b hmev hb hlt]
    exact ⟨rfl, rfl⟩

theorem mdC4Witness :
    (parseEvent initState ⟨2, [61, 70], 0, false, 0, some ⟨2, 4, 3, [144, 60, 64]⟩, []⟩).delivered
      = some (.midi ⟨2, 4, 3, [144, 61, 70]⟩) := by
  have h := mdC4.1 initState ⟨2, [61, 70], 0, false, 0, some ⟨2, 4, 3, [144, 60, 64]⟩, []⟩
      61 ⟨2, 4, 3, [144, 60, 64]⟩ [70] rfl rfl (by decide) rfl
  rw [h]
  rfl

/-- C9: the last decoded MIDI event, with its status byte and channel,
is retained in the persistent per-track midi_event field; a poll that
finds the next event not yet due leaves that field untouched, so it
survives between getNextEvent polls; and a running-status data byte is
then resolved against the retained event's status and channel, even
when that event was decoded during an earlier poll. -/
theorem mdC9 :
    (∀ (st : MFState) (tk : MFTrack) (b : Nat) (ds : List Nat),
       tk.data[tk.currOffset]? = some b → 128 ≤ b → b ≤ 239 →
       readN tk.data (tk.currOffset + 1) (midiDataLen b) = some ds →
       (parseEvent st tk).track.mev =
         some ⟨tk.trackId, b % 16, 1 + midiDataLen b, (b - b % 16) :: ds⟩) ∧
    (∀ (st : MFState) (tk : MFTrack) (e delta off2 : Nat),
       tk.endOfTrack = false →
       readVarLen tk.data tk.currOffset = .ok (delta, off2) →
       tk.elapsedTimeTotal + e < delta * st.microsecondDelta →
       (trackPoll st tk e).track.mev = tk.mev) ∧
    (∀ (st : MFState) (tk : MFTrack) (b : Nat) (prev : MidiEv) (ds : List Nat),
       tk.mev = some prev → tk.data[tk.currOffset]? = some b → b < 128 →
       readN tk.data (tk.currOffset + 1) (midiDataLen (prev.data.headD 0) - 1) = some ds →
       (parseEvent st tk).delivered =
         some (.midi ⟨tk.trackId, prev.channel, 1 + midiDataLen (prev.data.headD 0),
                      prev.data.headD 0 :: b :: ds⟩)) := by
  refine ⟨?_, ?_, ?_⟩
  · intro st tk b ds hb h1 h2 hread
    rw [parseMidiOk st tk b ds hb h1 h2 hread]
  · intro st tk e delta off2 hE hD hlt
    rw [trackPollNotDue st tk e delta off2 hE hD hlt]
  · intro st tk b prev ds hmev hb hlt hread
    rw [parseRunningOk st tk b prev ds hmev hb hlt hread]

theorem mdC9Witness :
    (parseEvent initState ⟨1, [144, 60, 64], 0, false, 0, none, []⟩).track.mev
      = some ⟨1, 0, 3, [144, 60, 64]⟩ := by
  have h := mdC9.1 initState ⟨1, [144, 60, 64], 0, false, 0, none, []⟩ 144 [60, 64]
      rfl (by decide) (by decide) rfl
  rw [h]
  rfl

/-- C7: when looping is enabled and every track has reached end of
track, the next poll restarts playback instead of stopping: for a
format 1 file every track except track 0 is reset to its chunk start
(offset 0, end-of-track cleared) while track 0 remains at end of track;
for a format 0 file the tracks themselves restart. -/
theorem mdC7 :
    (∀ (st : MFState) (e : Nat) (t0 : MFTrack) (rest : List MFTrack),
       st.paused = false → st.looping = true → st.format = 1 →
       isEOF (t0 :: rest) = true →
       getNextEvent st (t0 :: rest) e = (st, t0 :: rest.map restartTrack, []) ∧
       t0.endOfTrack = true ∧
       ∀ tk ∈ rest.map restartTrack, tk.currOffset = 0 ∧ tk.endOfTrack = false) ∧
    (∀ (st : MFState) (tks : List MFTrack) (e : Nat),
       st.paused = false → st.looping = true → st.format = 0 → isEOF tks = true →
       getNextEvent st tks e = (st, tks.map restartTrack, [])) := by
  constructor
  · intro st e t0 rest hp hl hf hE
    refine ⟨?_, ?_, ?_⟩
    · unfold getNextEvent
      rw [if_neg (by simp [hp]), if_pos hE]
      unfold loopRestart
      rw [if_pos hl, if_neg (by simp [hf])]
    · simp only [isEOF, List.all_cons, Bool.and_eq_true] at hE
      exact hE.1
    · intro tk htk
      simp only [List.mem_map] at htk
      obtain ⟨x, hx, rfl⟩ := htk
      exact ⟨rfl, rfl⟩
  · intro st tks e hp hl hf hE
    unfold getNextEvent
    rw [if_neg (by simp [hp]), if_pos hE]
    unfold loopRestart
    rw [if_pos hl, if_pos hf]

theorem mdC7Witness :
    getNextEvent { initState with looping := true }
        [⟨0, [], 0, true, 0, none, []⟩, ⟨1, [1], 5, true, 3, none, []⟩,
         ⟨2, [2, 3], 7, true, 4, none, []⟩] 100 =
      ({ initState with looping := true },
       [⟨0, [], 0, true, 0, none, []⟩, ⟨1, [1], 0, false, 0, none, []⟩,
        ⟨2, [2, 3], 0, false, 0, none, []⟩], []) := by
  have h := (mdC7.1 { initState with looping := true } 100 ⟨0, [], 0, true, 0, none, []⟩
      [⟨1, [1], 5, true, 3, none, []⟩, ⟨2, [2, 3], 7, true, 4, none, []⟩]
      rfl rfl rfl (by decide)).1
  rw [h]
  rfl

/-- C6: a sysex message split across packets is reassembled before
delivery: a track holding the 0xF0 packet F0 03 01 02 03 followed by
the 0xF7 continuation F7 02 04 F7 (at delta 0 each) delivers exactly
one sysex event with data bytes 01 02 03 04 and size 4; the sysex
length field is read as a VLQ, at most min(length, 50) bytes are
copied into the 50-byte buffer, and a declared length above the buffer
capacity truncates the data and skips the excess bytes without failing
or finishing the track. -/
theorem mdC6 :
    pollRepeat (trackFuel ⟨1, [0, 240, 3, 1, 2, 3, 0, 247, 2, 4, 247], 0, false, 0, none, []⟩)
        initState ⟨1, [0, 240, 3, 1, 2, 3, 0, 247, 2, 4, 247], 0, false, 0, none, []⟩ 0 =
      (initState, ⟨1, [0, 240, 3, 1, 2, 3, 0, 247, 2, 4, 247], 11, true, 0, none, []⟩,
       [.sysex ⟨1, 4, [1, 2, 3, 4]⟩]) ∧
    (∀ (st : MFState) (tk : MFTrack) (len off2 : Nat) (chunk : List Nat),
       tk.endOfTrack = false →
       tk.data[tk.currOffset]? = some 240 →
       readVarLen tk.data (tk.currOffset + 1) = .ok (len, off2) →
       50 < len →
       readN tk.data off2 50 = some chunk →
       (parseEvent st tk).track.endOfTrack = false ∧
       (parseEvent st tk).track.currOffset = off2 + len ∧
       (parseEvent st tk).track.sysexBuf.length ≤ 50 ∧
       (∀ s : SysexEv, (parseEvent st tk).delivered = some (.sysex s) → s.size ≤ 50)) := by
  constructor
  · decide
  · intro st tk len off2 chunk hE hb hvlq hlen hchunk
    exact parseSysexTruncates st tk len off2 chunk hE hb hvlq hlen hchunk

theorem mdC6Witness :
    (parseEvent initState ⟨0, 240 :: 60 :: List.replicate 60 7, 0, false, 0, none, []⟩).track.endOfTrack
        = false ∧
    (parseEvent initState ⟨0, 240 :: 60 :: List.replicate 60 7, 0, false, 0, none, []⟩).track.currOffset
        = 2 + 60 ∧
    (parseEvent initState ⟨0, 240 :: 60 :: List.replicate 60 7, 0, false, 0, none, []⟩).track.sysexBuf.length
        ≤ 50 := by
  have h := mdC6.2 initState ⟨0, 240 :: 60 :: List.replicate 60 7, 0, false, 0, none, []⟩
      60 2 (List.replicate 50 7) rfl (by decide) rfl (by decide) (by decide)
  exact ⟨h.1, h.2.1, h.2.2.1⟩

theorem runTPInvalidIsolated (st0 : MFState) (e : Nat) (pre post : List MFTrack)
    (tk : MFTrack) (delta off2 b : Nat)
    (hE : tk.endOfTrack = false)
    (hD : readVarLen tk.data tk.currOffset = .ok (delta, off2))
    (hDue : delta * (runTP e st0 pre).1.microsecondDelta ≤ tk.elapsedTimeTotal + e)
    (hB : tk.data[off2]? = some b)
    (h1 : 241 ≤ b) (h2 : b ≤ 254) (h3 : b ≠ 247) :
    runTP e st0 (pre ++ tk :: post) =
      ((runTP e (runTP e st0 pre).1 post).1,
       (runTP e st0 pre).2.1 ++
         setEOT { tk with
                  elapsedTimeTotal :=
                    tk.elapsedTimeTotal + e - delta * (runTP e st0 pre).1.microsecondDelta,
                  currOffset := off2 } :: (runTP e (runTP e st0 pre).1 post).2.1,
       (runTP e st0 pre).2.2 ++ (runTP e (runTP e st0 pre).1 post).2.2) := by
  rw [runTPAppend e st0 pre (tk :: post)]
  have hpoll := pollRepeatInvalidStatus (runTP e st0 pre).1 tk e delta off2 b hE hD hDue hB h1 h2 h3
  conv =>
    lhs
    rw [runTP]
  rw [hpoll]
  dsimp only
  rfl

/-- C8 counterexample: a sysex event whose declared length 60 exceeds
the 50-byte buffer does NOT force the track to EndOfTrack; it is
truncated and the track keeps running, contradicting the claim that a
sysex length exceeding the buffer sets the affected track's EndOfTrack
flag. -/
theorem mdC8Counter :
    (parseEvent initState
        ⟨0, 240 :: 60 :: List.replicate 60 9, 0, false, 0, none, []⟩).track.endOfTrack
      = false := by
  decide

/-- C8 (amended): an invalid status byte or a malformed delta-time VLQ
sets only the affected track's EndOfTrack flag, leaves the shared state
untouched and delivers nothing, and under the track-priority loop the
outcome for every other track is exactly as if the anomalous track were
absent; a sysex length exceeding the buffer is instead truncated
without finishing the track (see the counterexample); and isEOF is true
if and only if every track has reached EndOfTrack. -/
theorem mdC8 :
    (∀ tks : List MFTrack, isEOF tks = true ↔ ∀ tk ∈ tks, tk.endOfTrack = true) ∧
    (∀ (st : MFState) (tk : MFTrack) (b : Nat),
       tk.data[tk.currOffset]? = some b → 241 ≤ b → b ≤ 254 → b ≠ 247 →
       parseEvent st tk = ⟨setEOT tk, st, none⟩) ∧
    (∀ (st : MFState) (tk : MFTrack) (e : Nat) (err : VlqError),
       tk.endOfTrack = false →
       readVarLen tk.data tk.currOffset = .error err →
       trackPoll st tk e =
         ⟨st, setEOT { tk with elapsedTimeTotal := tk.elapsedTimeTotal + e }, none, false⟩) ∧
    (∀ (st0 : MFState) (e : Nat) (pre post : List MFTrack) (tk : MFTrack)
       (delta off2 b : Nat),
       tk.endOfTrack = false →
       readVarLen tk.data tk.currOffset = .ok (delta, off2) →
       delta * (runTP e st0 pre).1.microsecondDelta ≤ tk.elapsedTimeTotal + e →
       tk.data[off2]? = some b → 241 ≤ b → b ≤ 254 → b ≠ 247 →
       runTP e st0 (pre ++ tk :: post) =
         ((runTP e (runTP e st0 pre).1 post).1,
          (runTP e st0 pre).2.1 ++
            setEOT { tk with
                     elapsedTimeTotal :=
                       tk.elapsedTimeTotal + e - delta * (runTP e st0 pre).1.microsecondDelta,
                     currOffset := off2 } :: (runTP e (runTP e st0 pre).1 post).2.1,
          (runTP e st0 pre).2.2 ++ (runTP e (runTP e st0 pre).1 post).2.2)) := by
  refine ⟨?_, ?_, ?_, ?_⟩
  · intro tks
    simp [isEOF, List.all_eq_true]
  · intro st tk b hb hx1 hx2 hx3
    exact parseInvalidStatus st tk b hb hx1 hx2 hx3
  · intro st tk e err hE hErr
    exact trackPollVlqFail st tk e err hE hErr
  · intro st0 e pre post tk delta off2 b hE hD hDue hB hx1 hx2 hx3
    exact runTPInvalidIsolated st0 e pre post tk delta off2 b hE hD hDue hB hx1 hx2 hx3

theorem mdC8Witness :
    parseEvent initState ⟨1, [243], 0, false, 0, none, []⟩ =
      ⟨setEOT ⟨1, [243], 0, false, 0, none, []⟩, initState, none⟩ :=
  mdC8.2.1 initState ⟨1, [243], 0, false, 0, none, []⟩ 243 rfl (by decide) (by decide)
    (by decide)
